import Mathlib

/-!
Shallow embedding, in Lean 4, of the model-cache / transcription-orchestration
core of the `ia-voice-to-text` repository (Python sources: `app.py`,
`transcribe.py`, `server/services/model_manager.py`,
`server/services/response_store.py`, `server/routes/api.py`).

Conventions:
* Python `dict` values are embedded as insertion-ordered association lists
  (`List (κ × α)`) with first-match lookup, mirroring CPython semantics.
* Python exceptions become `Except`.
* The external load capability (`create_model`, excluded from the spec's
  scope) and filesystem path resolution (`Path(...).resolve()`) are taken as
  explicit function parameters.
* Object aliasing (needed for the defensive-copy claims about
  `ResponseStore`) is embedded with an explicit heap of dict cells addressed
  by `Nat`, where allocation appends a cell at the end of the heap.
-/

namespace VoiceToText

/-! ## Python primitives -/

/-- First-match lookup in an insertion-ordered association list, the
embedding of `d[k]` / `k in d` on a Python `dict`. -/
def dictGet [DecidableEq κ] (k : κ) : List (κ × α) → Option α
  | [] => none
  | (k₀, v₀) :: rest => if k₀ = k then some v₀ else dictGet k rest

/-- Embedding of `d[k] = v` on a Python `dict`: overwrite in place if the key
exists (keeping its original position), otherwise append. -/
def dictSet [DecidableEq κ] (k : κ) (v : α) : List (κ × α) → List (κ × α)
  | [] => [(k, v)]
  | (k₀, v₀) :: rest =>
      if k₀ = k then (k, v) :: rest else (k₀, v₀) :: dictSet k v rest

/-- Python slice `l[-n:]` for a non-negative count `n`: the last `n` elements,
except that `n = 0` yields the whole list because `-0 == 0` in Python. -/
def pyLastSlice (n : Nat) (l : List α) : List α :=
  if n = 0 then l else l.drop (l.length - n)

/-- The whitespace characters recognised by Python's `str.strip()` and
`str.split()` in the ASCII range. -/
def isPySpace (c : Char) : Bool :=
  c = ' ' || c = '\t' || c = '\n' || c = '\r' ||
    c = Char.ofNat 11 || c = Char.ofNat 12

/-- Embedding of Python `str.strip()`: remove leading and trailing
whitespace. -/
def pyStrip (s : String) : String :=
  ⟨((s.data.dropWhile isPySpace).reverse.dropWhile isPySpace).reverse⟩

/-- Helper for `pySplit`: scan the characters, accumulating the current
(reversed) word. -/
def pySplitAux : List Char → List Char → List String
  | [], [] => []
  | [], acc => [⟨acc.reverse⟩]
  | c :: cs, acc =>
      if isPySpace c then
        match acc with
        | [] => pySplitAux cs []
        | _ => (⟨acc.reverse⟩ : String) :: pySplitAux cs []
      else pySplitAux cs (c :: acc)

/-- Embedding of Python `str.split()` with no argument: maximal runs of
non-whitespace characters, with no empty words. -/
def pySplit (s : String) : List String :=
  pySplitAux s.data []

/-! ## `server/services/response_store.py` — `ResponseStore`

The store holds an optional latest entry and a bounded history.  The entry
type is a parameter `α`; for the aliasing claims it is instantiated with heap
addresses, for the purely value-level claims it can be anything. -/

structure ResponseStore (α : Type) where
  latest : Option α
  history : List α
  maxHistory : Nat

/-- `ResponseStore.__init__(max_history)`. -/
def ResponseStore.init (maxHistory : Nat) : ResponseStore α :=
  { latest := none, history := [], maxHistory := maxHistory }

/-- `ResponseStore.add(payload)`: record the payload as latest, append it to
the history, and truncate via the Python slice `self._history[-self._max_history:]`
whenever the length exceeds the configured maximum. -/
def ResponseStore.add (s : ResponseStore α) (payload : α) : ResponseStore α :=
  let hist := s.history ++ [payload]
  { latest := some payload
    history := if hist.length > s.maxHistory then pyLastSlice s.maxHistory hist else hist
    maxHistory := s.maxHistory }

/-- A whole sequence of `add` calls, oldest first. -/
def ResponseStore.addAll (s : ResponseStore α) : List α → ResponseStore α
  | [] => s
  | x :: xs => (s.add x).addAll xs

/-! ## `transcribe.py` — segment aggregation (`transcribe_audio`)

The inference capability hands back a lazy sequence of raw segments; the
aggregation loop trims each text, drops empty ones, counts words and
characters, and optionally attaches word-level timing.  Timestamps are floats
in the source and are carried through untouched, so they are embedded as an
opaque type parameter `τ`. -/

structure RawWord (τ : Type) where
  start : τ
  stop : τ
  word : String

structure RawSegment (τ : Type) where
  start : τ
  stop : τ
  text : String
  words : Option (List (RawWord τ))

/-- One entry of the `segments` list built by `transcribe_audio`. -/
structure SegmentPayload (τ : Type) where
  start : τ
  stop : τ
  text : String
  words : Option (List (RawWord τ))

/-- The `words` list attached to a payload: kept only when word timestamps
were requested and the raw segment exposes a non-empty `words` attribute
(Python truthiness of `getattr(seg, "words", None)`), filtering out words
whose text is empty after trimming. -/
def wordsPayload (wordTimestamps : Bool) (seg : RawSegment τ) :
    Option (List (RawWord τ)) :=
  match seg.words with
  | none => none
  | some ws =>
      if wordTimestamps && !ws.isEmpty then
        some ((ws.filter fun w => pyStrip w.word ≠ "").map
          fun w => { start := w.start, stop := w.stop, word := w.word })
      else none

/-- The aggregation state assembled by the loop in `transcribe_audio`:
`lines`, `segments`, `word_count`, `char_count` (`info` is summary metadata
taken verbatim from the capability and is not part of the loop). -/
structure TranscriptionResult (τ : Type) where
  lines : List String
  segments : List (SegmentPayload τ)
  wordCount : Nat
  charCount : Nat

/-- `TranscriptionResult.segment_count`, a derived property: `len(self.lines)`. -/
def TranscriptionResult.segmentCount (r : TranscriptionResult τ) : Nat :=
  r.lines.length

/-- `TranscriptionResult.text`, a derived property: `"\n".join(self.lines)`. -/
def TranscriptionResult.text (r : TranscriptionResult τ) : String :=
  String.intercalate "\n" r.lines

/-- The `for seg in segments_iter` loop of `transcribe_audio`: trim, drop
empty texts, accumulate counts, build payloads in order. -/
def aggregateSegments (wordTimestamps : Bool) :
    List (RawSegment τ) → TranscriptionResult τ
  | [] => { lines := [], segments := [], wordCount := 0, charCount := 0 }
  | seg :: rest =>
      let r := aggregateSegments wordTimestamps rest
      let text := pyStrip seg.text
      if text = "" then r
      else
        { lines := text :: r.lines
          segments :=
            { start := seg.start, stop := seg.stop, text := text
              words := wordsPayload wordTimestamps seg } :: r.segments
          wordCount := (pySplit text).length + r.wordCount
          charCount := text.length + r.charCount }

/-! ## `server/services/model_manager.py` — `ModelManager`

Filesystem path resolution (`Path(p).resolve()`) is a parameter
`resolve : String → String`; the external load capability (`create_model`,
outside the spec's scope) is a parameter
`loader : String → String → Option String → Except String (ModelBundle μ)`
taking the model path, the device option and the compute-type option, and
either returning a bundle or raising (an exception message).  `μ` is the
opaque type of loaded model instances. -/

/-- The process-wide settings the cache key depends on
(`Settings.device_option`, `Settings.compute_type_option`). -/
structure CacheSettings where
  deviceOption : String
  computeTypeOption : Option String

/-- `ModelKey = Tuple[str, str, Optional[str]]`. -/
abbrev CacheKey := String × String × Option String

/-- `ModelBundle = Tuple[object, str, str]` — model instance, device,
compute type. -/
structure ModelBundle (μ : Type) where
  model : μ
  device : String
  computeType : String
deriving DecidableEq

/-- The type of the external load capability. -/
abbrev Loader (μ : Type) := String → String → Option String → Except String (ModelBundle μ)

/-- The mutable model cache `self._cache : Dict[ModelKey, ModelBundle]`. -/
abbrev ModelCache (μ : Type) := List (CacheKey × ModelBundle μ)

/-- `ModelManager._key` / `app._model_key`:
`(str(Path(model_path).resolve()), device_option, compute_type_option)`. -/
def modelKey (resolve : String → String) (st : CacheSettings) (path : String) : CacheKey :=
  (resolve path, st.deviceOption, st.computeTypeOption)

/-- The Python exceptions crossing the boundaries modelled here. -/
inductive PyExc where
  | keyError (key : String)
  | modelNotFound (selector : String)
  | loadError (msg : String)
deriving DecidableEq

/-- `ModelManager._load_model` / `app._ensure_model_loaded`: under the lock,
load and insert on a cache miss, return the cached bundle; an exception from
`create_model` propagates and leaves the cache unchanged.  The third
component counts how often the load capability was invoked by this call
(`0` or `1`). -/
def loadModel (loader : Loader μ) (resolve : String → String) (st : CacheSettings)
    (cache : ModelCache μ) (path : String) :
    Except String (ModelBundle μ) × ModelCache μ × Nat :=
  let key := modelKey resolve st path
  match dictGet key cache with
  | some b => (.ok b, cache, 0)
  | none =>
      match loader path st.deviceOption st.computeTypeOption with
      | .ok b => (.ok b, dictSet key b cache, 1)
      | .error e => (.error e, cache, 1)

/-- `app._get_cached_model`: read-only lookup, raising `KeyError(model_path)`
when the key is absent; never invokes the load capability. -/
def getCachedModel (resolve : String → String) (st : CacheSettings)
    (cache : ModelCache μ) (path : String) : Except PyExc (ModelBundle μ) :=
  match dictGet (modelKey resolve st path) cache with
  | some b => .ok b
  | none => .error (.keyError path)

/-- One cache operation of a process trace: `getOrLoad` is
`_load_model`/`_ensure_model_loaded`, `tryGet` is `_get_cached_model`. -/
inductive CacheOp where
  | getOrLoad (path : String)
  | tryGet (path : String)
deriving DecidableEq

/-- Run a sequence of cache operations, collecting (in order) the cache key
of every invocation of the external load capability. -/
def runCacheOps (loader : Loader μ) (resolve : String → String) (st : CacheSettings) :
    List CacheOp → ModelCache μ → ModelCache μ × List CacheKey
  | [], cache => (cache, [])
  | .getOrLoad p :: rest, cache =>
      let (_, cache₁, n) := loadModel loader resolve st cache p
      let (cache₂, ks) := runCacheOps loader resolve st rest cache₁
      (cache₂, (if n = 0 then [] else [modelKey resolve st p]) ++ ks)
  | .tryGet _ :: rest, cache => runCacheOps loader resolve st rest cache

/-- `ModelManager._resolve_selection`: `None` → the default alias and its
registry path; a known alias → that alias; otherwise resolve the selector as
a filesystem path and compare it against the resolved registry values,
first match wins; no match → `ModelNotFoundError(selection)`. -/
def resolveSelection (resolve : String → String) (registry : List (String × String))
    (defaultAlias : String) (selection : Option String) :
    Except PyExc (String × String) :=
  match selection with
  | none =>
      match dictGet defaultAlias registry with
      | some p => .ok (defaultAlias, p)
      | none => .error (.keyError defaultAlias)
  | some sel =>
      match dictGet sel registry with
      | some p => .ok (sel, p)
      | none =>
          let candidate := resolve sel
          match registry.find? (fun ap => resolve ap.2 = candidate) with
          | some (a, p) => .ok (a, p)
          | none => .error (.modelNotFound sel)

/-- `ModelManager.get_model`: resolve the selection, then load (or fetch)
the bundle through `_load_model`; returns the alias, the path and the bundle. -/
def getModel (loader : Loader μ) (resolve : String → String) (st : CacheSettings)
    (registry : List (String × String)) (defaultAlias : String)
    (cache : ModelCache μ) (selection : Option String) :
    Except PyExc (String × String × ModelBundle μ) × ModelCache μ × Nat :=
  match resolveSelection resolve registry defaultAlias selection with
  | .error e => (.error e, cache, 0)
  | .ok (anAlias, path) =>
      match loadModel loader resolve st cache path with
      | (.ok b, cache₁, n) => (.ok (anAlias, path, b), cache₁, n)
      | (.error e, cache₁, n) => (.error (.loadError e), cache₁, n)

/-- The bulk pass of `ModelManager.load_all`: try to load every registered
model, catching each failure independently into the `errors` map. -/
def loadAllPass (loader : Loader μ) (resolve : String → String) (st : CacheSettings) :
    List (String × String) → ModelCache μ → ModelCache μ × List (String × String)
  | [], cache => (cache, [])
  | (anAlias, path) :: rest, cache =>
      match loadModel loader resolve st cache path with
      | (.ok _, cache₁, _) => loadAllPass loader resolve st rest cache₁
      | (.error e, cache₁, _) =>
          let (cache₂, errs) := loadAllPass loader resolve st rest cache₁
          (cache₂, (anAlias, e) :: errs)

/-- `ModelManager.load_all`: the bulk pass with per-alias failure isolation,
then `self.get_model(self._default_alias)` to ensure the default is ready —
an exception there propagates out of startup. -/
def loadAll (loader : Loader μ) (resolve : String → String) (st : CacheSettings)
    (registry : List (String × String)) (defaultAlias : String)
    (cache : ModelCache μ) :
    Except PyExc Unit × ModelCache μ × List (String × String) :=
  let (cache₁, errs) := loadAllPass loader resolve st registry cache
  match getModel loader resolve st registry defaultAlias cache₁ (some defaultAlias) with
  | (.ok _, cache₂, _) => (.ok (), cache₂, errs)
  | (.error e, cache₂, _) => (.error e, cache₂, errs)

/-! ## Model discovery (`ModelManager._discover_models` / `app._discover_local_models`) -/

/-- One entry of `model_root.iterdir()`. -/
structure DirEntry where
  name : String
  isDir : Bool

/-- The observable state of the model root directory. -/
structure ModelRoot where
  rootExists : Bool
  entries : List DirEntry

/-- The `for entry in self.settings.model_root.iterdir()` loop:
`models[entry.name] = str(entry.resolve())` for directories only. -/
def discoverLoop (resolveEntry : String → String) :
    List DirEntry → List (String × String) → List (String × String)
  | [], models => models
  | e :: rest, models =>
      discoverLoop resolveEntry rest
        (if e.isDir then dictSet e.name (resolveEntry e.name) models else models)

/-- `ModelManager._discover_models`: an empty mapping when the root does not
exist, otherwise one alias per immediate subdirectory.  `resolveEntry` maps
an entry name to `str((model_root / name).resolve())`. -/
def discoverModels (resolveEntry : String → String) (fs : ModelRoot) :
    List (String × String) :=
  if fs.rootExists then discoverLoop resolveEntry fs.entries [] else []

/-! ## `server/routes/api.py` and `app.py` — the transcription endpoint

Two generations of the endpoint live in the repository.  The router version
(`server/routes/api.py`) fetches the bundle through `ModelManager.get_model`,
which loads on a cache miss; the legacy module-level version (`app.py`)
resolves the selection itself and fetches through `_get_cached_model`, which
never loads.  Both report `HTTPException`s with a status code and a detail
string. -/

/-- `fastapi.HTTPException(status_code=..., detail=...)`. -/
structure HTTPErr where
  statusCode : Nat
  detail : String
deriving DecidableEq

/-- How the model-fetch stage of a transcription request ends when it does
not produce a bundle: a deliberate `HTTPException`, or an unhandled Python
exception (which the framework surfaces as a 500 server error). -/
inductive ApiFailure where
  | http (e : HTTPErr)
  | unhandled (e : PyExc)
deriving DecidableEq

/-- Python's `<` on strings: lexicographic comparison of code points. -/
def pyStrLt : List Char → List Char → Bool
  | [], [] => false
  | [], _ :: _ => true
  | _ :: _, [] => false
  | c :: cs, d :: ds => if c < d then true else if d < c then false else pyStrLt cs ds

/-- Python's `<=` on strings. -/
def pyStrLe (a b : String) : Bool := !pyStrLt b.data a.data

/-- Insertion step of the stable ascending sort embedding Python's
`sorted`. -/
def sortedInsert (x : String) : List String → List String
  | [] => [x]
  | y :: ys => if pyStrLe x y then x :: y :: ys else y :: sortedInsert x ys

/-- Stable ascending sort, the embedding of Python's `sorted(...)`. -/
def pySorted : List String → List String
  | [] => []
  | x :: xs => sortedInsert x (pySorted xs)

/-- `sorted(self._registry.keys())` / `AVAILABLE_MODEL_NAMES`. -/
def availableAliases (registry : List (String × String)) : List String :=
  pySorted (registry.map Prod.fst)

/-- The detail string of the 400 response for an unknown selector. -/
def unknownModelDetail (registry : List (String × String)) : String :=
  "Mod\xe8le inconnu. Mod\xe8les disponibles: " ++
    String.intercalate ", " (availableAliases registry)

/-- The model-fetch stage of `transcribe_endpoint` in
`server/routes/api.py`: `get_model` inside a `try`, catching only
`ModelNotFoundError` into a 400; any other exception propagates.  The last
component counts the invocations of the load capability performed during the
request. -/
def routerFetchModel (loader : Loader μ) (resolve : String → String)
    (st : CacheSettings) (registry : List (String × String))
    (defaultAlias : String) (cache : ModelCache μ) (selection : Option String) :
    Except ApiFailure (String × String × ModelBundle μ) × ModelCache μ × Nat :=
  match getModel loader resolve st registry defaultAlias cache selection with
  | (.ok r, cache₁, n) => (.ok r, cache₁, n)
  | (.error (.modelNotFound _), cache₁, n) =>
      (.error (.http ⟨400, unknownModelDetail registry⟩), cache₁, n)
  | (.error e, cache₁, n) => (.error (.unhandled e), cache₁, n)

/-- `app._resolve_model_selection`: like `ModelManager._resolve_selection`
except that registry values are compared verbatim against the resolved
candidate (they are stored already resolved), and the failure is a plain
`KeyError(selection)`. -/
def resolveModelSelection (resolve : String → String)
    (registry : List (String × String)) (defaultAlias : String)
    (selection : Option String) : Except PyExc (String × String) :=
  match selection with
  | none =>
      match dictGet defaultAlias registry with
      | some p => .ok (defaultAlias, p)
      | none => .error (.keyError defaultAlias)
  | some sel =>
      match dictGet sel registry with
      | some p => .ok (sel, p)
      | none =>
          let candidate := resolve sel
          match registry.find? (fun ap => ap.2 = candidate) with
          | some (a, p) => .ok (a, p)
          | none => .error (.keyError sel)

/-- The detail string of the 503 response of the legacy endpoint:
`f"Le modèle '{model_alias}' n'est pas prêt. Consultez /health."`. -/
def notReadyDetail (modelAlias : String) : String :=
  "Le mod\xe8le \x27" ++ modelAlias ++ "\x27 n\x27est pas pr\xeat. Consultez /health."

/-- The model-fetch stage of `transcribe_endpoint` in `app.py`:
`_resolve_model_selection` inside a `try` catching `KeyError` into a 400,
then `_get_cached_model` inside a `try` catching `KeyError` into a 503
pointing at `/health`.  No load capability is ever invoked; the cache is
never modified. -/
def legacyFetchModel (resolve : String → String) (st : CacheSettings)
    (registry : List (String × String)) (defaultAlias : String)
    (cache : ModelCache μ) (selection : Option String) :
    Except ApiFailure (String × String × ModelBundle μ) :=
  match resolveModelSelection resolve registry defaultAlias selection with
  | .error _ => .error (.http ⟨400, unknownModelDetail registry⟩)
  | .ok (modelAlias, modelPath) =>
      match getCachedModel resolve st cache modelPath with
      | .ok b => .ok (modelAlias, modelPath, b)
      | .error _ => .error (.http ⟨503, notReadyDetail modelAlias⟩)

/-! ## Temporary-file staging and cleanup (`transcribe_endpoint`, both versions)

The filesystem is the set of existing paths, as a list; the outcome of
`transcribe_audio` run in the worker thread is a parameter
`infer : Except ε ρ`. -/

/-- `Path.unlink(missing_ok=True)`: remove the path; absent is not an
error. -/
def unlinkMissingOk (fs : List String) (p : String) : List String :=
  fs.filter (· ≠ p)

/-- The staging-inference-cleanup phase of `transcribe_endpoint`: the
`NamedTemporaryFile(delete=False, ...)` block creates the staged file, then
`try: result = await asyncio.to_thread(transcribe_audio, ...)`
`finally: tmp_path.unlink(missing_ok=True)` — the unlink runs both when the
inference returns and when it raises, and the outcome (result or exception)
propagates unchanged to the caller. -/
def inferencePhase (fs : List String) (tmpPath : String) (infer : Except ε ρ) :
    Except ε ρ × List String :=
  let fsStaged := fs ++ [tmpPath]
  match infer with
  | .ok r => (.ok r, unlinkMissingOk fsStaged tmpPath)
  | .error e => (.error e, unlinkMissingOk fsStaged tmpPath)

/-! ## Heap model for `ResponseStore` defensive copies (claims about aliasing)

Python dicts are mutable objects; `dict(d)` allocates a fresh one with the
same contents.  A heap is a list of cells (the contents of each allocated
dict), an address is an index, and allocation appends. -/

/-- The heap of allocated payload dicts; `ε` is the contents of one dict.
An address is an index into the heap. -/
abbrev Heap (ε : Type) := List ε

/-- Dereference an address. -/
def heapGet (h : Heap ε) (a : Nat) : Option ε := h[a]?

/-- Allocate a fresh cell holding `v`; its address is the old heap size. -/
def heapAlloc (h : Heap ε) (v : ε) : Heap ε × Nat := (h ++ [v], h.length)

/-- Mutate the cell at `a` in place (external mutation of a dict object). -/
def heapSet (h : Heap ε) (a : Nat) (v : ε) : Heap ε := h.set a v

/-- `ResponseStore.latest()`: under the lock, `None` if nothing recorded,
otherwise `dict(self._latest)` — a freshly allocated copy of the stored
entry's contents.  Returns the handed-out address and the new heap. -/
def storeLatest (s : ResponseStore Nat) (h : Heap ε) : Option Nat × Heap ε :=
  match s.latest with
  | none => (none, h)
  | some a =>
      match heapGet h a with
      | some v =>
          let (h₁, a₁) := heapAlloc h v
          (some a₁, h₁)
      | none => (none, h)

/-- `ResponseStore.history()`: `[dict(item) for item in self._history]` — a
fresh copy of every retained entry, oldest first. -/
def storeHistory (s : ResponseStore Nat) (h : Heap ε) : List Nat × Heap ε :=
  go s.history h
where
  go : List Nat → Heap ε → List Nat × Heap ε
    | [], h => ([], h)
    | a :: rest, h =>
        match heapGet h a with
        | some v =>
            let (h₁, a₁) := heapAlloc h v
            let (as, h₂) := go rest h₁
            (a₁ :: as, h₂)
        | none => go rest h

/-- Every address the store holds points into the heap. -/
def storeValid (s : ResponseStore Nat) (h : Heap ε) : Prop :=
  (∀ a ∈ s.history, a < h.length) ∧ ∀ a, s.latest = some a → a < h.length

/-- The contents a caller observes through `latest()`. -/
def latestView (s : ResponseStore Nat) (h : Heap ε) : Option ε :=
  s.latest.bind (heapGet h)

/-- The contents a caller observes through `history()`. -/
def historyView (s : ResponseStore Nat) (h : Heap ε) : List ε :=
  s.history.filterMap (heapGet h)

/-! ## Lemmas about `ResponseStore` -/

theorem ResponseStore.maxHistory_add (s : ResponseStore α) (x : α) :
    (s.add x).maxHistory = s.maxHistory := rfl

theorem ResponseStore.maxHistory_addAll (s : ResponseStore α) :
    ∀ xs : List α, (s.addAll xs).maxHistory = s.maxHistory := by
  intro xs
  induction xs generalizing s with
  | nil => rfl
  | cons x xs ih => simpa [ResponseStore.addAll] using ih (s.add x)

theorem ResponseStore.addAll_append (s : ResponseStore α) (xs : List α) (x : α) :
    s.addAll (xs ++ [x]) = (s.addAll xs).add x := by
  induction xs generalizing s with
  | nil => rfl
  | cons y ys ih => simpa [ResponseStore.addAll] using ih (s.add y)

/-- After any sequence of `add`s on a store with capacity at least 1, the
history is exactly the last `maxHistory` payloads, oldest first. -/
theorem ResponseStore.history_addAll_of_pos (maxH : Nat) (hpos : 1 ≤ maxH) :
    ∀ xs : List α,
      ((ResponseStore.init maxH).addAll xs).history = xs.drop (xs.length - maxH) := by
  intro xs
  induction xs using List.reverseRecOn with
  | nil => simp [ResponseStore.addAll, ResponseStore.init]
  | append_singleton xs x ih =>
      rw [ResponseStore.addAll_append]
      set s := (ResponseStore.init (α := α) maxH).addAll xs with hs
      have hmax : s.maxHistory = maxH := ResponseStore.maxHistory_addAll _ _
      have hlen : s.history.length = xs.length - (xs.length - maxH) := by
        rw [ih]; simp
      rcases Nat.lt_or_ge xs.length maxH with hlt | hge
      · have hdrop : xs.length - maxH = 0 := Nat.sub_eq_zero_of_le (Nat.le_of_lt hlt)
        have hcond : ¬ (s.history ++ [x]).length > s.maxHistory := by
          simp only [List.length_append, List.length_cons, List.length_nil, hmax, hlen, hdrop]
          omega
        simp only [ResponseStore.add, if_neg hcond]
        rw [ih, hdrop, List.drop_zero]
        have hz : (xs ++ [x]).length - maxH = 0 := by
          simp only [List.length_append, List.length_cons, List.length_nil]; omega
        rw [hz, List.drop_zero]
      · have hslen : s.history.length = maxH := by rw [hlen]; omega
        have hcond : (s.history ++ [x]).length > s.maxHistory := by
          simp only [List.length_append, List.length_cons, List.length_nil, hmax, hslen]
          omega
        simp only [ResponseStore.add, if_pos hcond]
        have hmne : maxH ≠ 0 := by omega
        have hlens : (s.history ++ [x]).length - maxH = 1 := by
          simp only [List.length_append, List.length_cons, List.length_nil, hslen]; omega
        rw [hmax]
        simp only [pyLastSlice, if_neg hmne, hlens]
        rw [ih]
        have h1 : (1 : Nat) ≤ (xs.drop (xs.length - maxH)).length := by
          simp only [List.length_drop]; omega
        rw [List.drop_append_of_le_length h1, List.drop_drop]
        have h3 : (xs ++ [x]).length - maxH = xs.length - maxH + 1 := by
          simp only [List.length_append, List.length_cons, List.length_nil]; omega
        rw [h3, List.drop_append_of_le_length (by omega : xs.length - maxH + 1 ≤ xs.length)]

/-- `C4` (corrected).  The Python slice `history[-max:]` retains the whole
list when `max = 0` (because `-0 == 0`), so the claimed invariant
`len(history) ≤ max` fails for a configured maximum of `0`: a single `add`
on a store with `max_history = 0` leaves one entry. -/
theorem responseStore_capacity_zero_counterexample :
    ¬ (((ResponseStore.init (α := Nat) 0).add 7).history.length ≤ 0) := by
  decide

/-- `C4` (amended: for every configured maximum `max ≥ 1`).  After any
sequence of `M` adds, the history is the last `min M max` payloads in order,
so `len(history) ≤ max` always holds and `M > max` leaves exactly `max`
entries, oldest first with the most recently added entry last. -/
theorem responseStore_bounded_history (maxH : Nat) (hpos : 1 ≤ maxH) (xs : List α) :
    ((ResponseStore.init maxH).addAll xs).history = xs.drop (xs.length - maxH) ∧
    ((ResponseStore.init maxH).addAll xs).history.length ≤ maxH ∧
    (maxH < xs.length → ((ResponseStore.init maxH).addAll xs).history.length = maxH) := by
  refine ⟨ResponseStore.history_addAll_of_pos maxH hpos xs, ?_, ?_⟩
  · rw [ResponseStore.history_addAll_of_pos maxH hpos xs]
    simp; omega
  · intro hlt
    rw [ResponseStore.history_addAll_of_pos maxH hpos xs]
    simp; omega

/-- After any `add`, the last history entry is the payload just added. -/
theorem ResponseStore.getLast?_add (s : ResponseStore α) (x : α) :
    (s.add x).history.getLast? = some x := by
  simp only [ResponseStore.add]
  split
  · rename_i hcond
    simp only [pyLastSlice]
    split
    · exact List.getLast?_concat _
    · rename_i hne
      rw [List.getLast?_drop]
      have hlen : ¬ (s.history ++ [x]).length ≤ (s.history ++ [x]).length - s.maxHistory := by
        simp only [List.length_append, List.length_cons, List.length_nil] at hcond ⊢
        omega
      rw [if_neg hlen]
      exact List.getLast?_concat _
  · exact List.getLast?_concat _

/-- `C10`.  After every sequence of `add` operations (for every configured
maximum, evictions included), `latest` is absent exactly when the history is
empty, and the last history entry always coincides with `latest`. -/
theorem responseStore_latest_history_coherent (maxH : Nat) (xs : List α) :
    (((ResponseStore.init maxH).addAll xs).latest = none ↔
      ((ResponseStore.init maxH).addAll xs).history = []) ∧
    ((ResponseStore.init maxH).addAll xs).history.getLast? =
      ((ResponseStore.init maxH).addAll xs).latest := by
  have key : ∀ ys : List α, ((ResponseStore.init (α := α) maxH).addAll ys).history.getLast? =
      ((ResponseStore.init maxH).addAll ys).latest := by
    intro ys
    induction ys using List.reverseRecOn with
    | nil => rfl
    | append_singleton ys y ih =>
        rw [ResponseStore.addAll_append, ResponseStore.getLast?_add]
        rfl
  refine ⟨?_, key xs⟩
  rw [← key xs]
  exact List.getLast?_eq_none_iff

/-- Witness for the amended `C4` at `max = 2` and three adds. -/
theorem responseStore_bounded_history_witness :
    ((ResponseStore.init (α := Nat) 2).addAll [1, 2, 3]).history = [2, 3] ∧
    ((ResponseStore.init (α := Nat) 2).addAll [1, 2, 3]).history.length = 2 := by
  have h := responseStore_bounded_history 2 (by decide) ([1, 2, 3] : List Nat)
  exact ⟨by rw [h.1]; decide, h.2.2 (by decide)⟩

/-! ## Lemmas about the segment aggregator -/

/-- Characterisation of the aggregation loop: retained lines are the
non-empty trimmed texts in order, the payload texts match them, and the
counts are sums over the retained texts only. -/
theorem aggregateSegments_char (wt : Bool) (segs : List (RawSegment τ)) :
    (aggregateSegments wt segs).lines =
      (segs.map fun s => pyStrip s.text).filter (· ≠ "") ∧
    (aggregateSegments wt segs).segments.map SegmentPayload.text =
      (segs.map fun s => pyStrip s.text).filter (· ≠ "") ∧
    (aggregateSegments wt segs).wordCount =
      (((segs.map fun s => pyStrip s.text).filter (· ≠ "")).map
        fun t => (pySplit t).length).sum ∧
    (aggregateSegments wt segs).charCount =
      (((segs.map fun s => pyStrip s.text).filter (· ≠ "")).map String.length).sum := by
  induction segs with
  | nil => simp [aggregateSegments]
  | cons seg rest ih =>
      obtain ⟨h1, h2, h3, h4⟩ := ih
      by_cases h : pyStrip seg.text = ""
      · simp [aggregateSegments, h, h1, h2, h3, h4]
      · simp [aggregateSegments, h, h1, h2, h3, h4]

/-- `C5`.  Segments that are empty after trimming are dropped and contribute
nothing; `wordCount` sums the whitespace-token counts and `charCount` the
trimmed lengths over retained segments only; `segmentCount` is the number of
retained segments.  On the raw texts `["", "hello", "  ", "world "]` the
result keeps exactly `"hello"` and `"world"` with `wordCount = 2` and
`charCount = 10`. -/
theorem aggregator_drops_empty_segments :
    (∀ (τ : Type) (wt : Bool) (segs : List (RawSegment τ)),
      (aggregateSegments wt segs).lines =
        (segs.map fun s => pyStrip s.text).filter (· ≠ "") ∧
      (aggregateSegments wt segs).wordCount =
        (((segs.map fun s => pyStrip s.text).filter (· ≠ "")).map
          fun t => (pySplit t).length).sum ∧
      (aggregateSegments wt segs).charCount =
        (((segs.map fun s => pyStrip s.text).filter (· ≠ "")).map String.length).sum ∧
      (aggregateSegments wt segs).segmentCount =
        ((segs.map fun s => pyStrip s.text).filter (· ≠ "")).length) ∧
    ((aggregateSegments (τ := Unit) false
        [⟨(), (), "", none⟩, ⟨(), (), "hello", none⟩,
         ⟨(), (), "  ", none⟩, ⟨(), (), "world ", none⟩]).lines = ["hello", "world"] ∧
     (aggregateSegments (τ := Unit) false
        [⟨(), (), "", none⟩, ⟨(), (), "hello", none⟩,
         ⟨(), (), "  ", none⟩, ⟨(), (), "world ", none⟩]).wordCount = 2 ∧
     (aggregateSegments (τ := Unit) false
        [⟨(), (), "", none⟩, ⟨(), (), "hello", none⟩,
         ⟨(), (), "  ", none⟩, ⟨(), (), "world ", none⟩]).charCount = 10 ∧
     (aggregateSegments (τ := Unit) false
        [⟨(), (), "", none⟩, ⟨(), (), "hello", none⟩,
         ⟨(), (), "  ", none⟩, ⟨(), (), "world ", none⟩]).segmentCount = 2) := by
  constructor
  · intro τ wt segs
    obtain ⟨h1, _, h3, h4⟩ := aggregateSegments_char wt segs
    exact ⟨h1, h3, h4, by rw [TranscriptionResult.segmentCount, h1]⟩
  · refine ⟨by decide, by decide, by decide, by decide⟩

/-! ## Lemmas about the staging / cleanup phase -/

/-- `C3`.  The staged temporary file no longer exists after the request on
every exit path: the inference outcome (result or exception) propagates to
the caller unchanged (no retry), the staged file is deleted whether the
inference returned or raised, and unlinking an already-missing file is a
no-op rather than an error. -/
theorem inferencePhase_cleanup (ε ρ : Type) (fs : List String) (tmpPath : String)
    (infer : Except ε ρ) :
    (inferencePhase fs tmpPath infer).1 = infer ∧
    tmpPath ∉ (inferencePhase fs tmpPath infer).2 ∧
    (∀ e, infer = .error e → (inferencePhase fs tmpPath infer).1 = .error e ∧
      tmpPath ∉ (inferencePhase fs tmpPath infer).2) ∧
    (tmpPath ∉ fs → unlinkMissingOk fs tmpPath = fs) := by
  have hres : (inferencePhase fs tmpPath infer).1 = infer := by
    cases infer <;> rfl
  have hmem : tmpPath ∉ (inferencePhase fs tmpPath infer).2 := by
    cases infer <;> simp [inferencePhase, unlinkMissingOk]
  refine ⟨hres, hmem, fun e he => ⟨by rw [hres, he], hmem⟩, fun h => ?_⟩
  rw [unlinkMissingOk, List.filter_eq_self]
  intro a ha
  simp only [ne_eq, decide_not, Bool.not_eq_eq_eq_not, Bool.not_true, decide_eq_false_iff_not]
  exact fun hc => h (hc ▸ ha)

/-- Witness for `C3`: a failing inference on a concrete filesystem. -/
theorem inferencePhase_cleanup_witness :
    (inferencePhase (ρ := Nat) ["a.wav"] "tmp1" (.error "boom")).1 = .error "boom" ∧
    "tmp1" ∉ (inferencePhase (ρ := Nat) ["a.wav"] "tmp1"
      (.error (ε := String) "boom")).2 ∧
    unlinkMissingOk ["a.wav"] "tmp1" = ["a.wav"] := by
  have h := inferencePhase_cleanup String Nat ["a.wav"] "tmp1" (.error "boom")
  exact ⟨(h.2.2.1 "boom" rfl).1, h.2.1, h.2.2.2 (by decide)⟩

/-! ## Lemmas about model discovery -/

/-- Assigning to an absent key appends the pair. -/
theorem dictSet_of_not_mem [DecidableEq κ] (k : κ) (v : α) (m : List (κ × α))
    (h : k ∉ m.map Prod.fst) : dictSet k v m = m ++ [(k, v)] := by
  induction m with
  | nil => rfl
  | cons kv rest ih =>
      obtain ⟨k₀, v₀⟩ := kv
      simp only [List.map_cons, List.mem_cons, not_or] at h
      rw [dictSet, if_neg (fun hc => h.1 hc.symm), ih h.2]
      rfl

/-- The discovery loop on entries with pairwise-distinct names appends one
pair per directory entry, in order. -/
theorem discoverLoop_char (r : String → String) :
    ∀ (entries : List DirEntry) (models : List (String × String)),
      ((models.map Prod.fst) ++ entries.map DirEntry.name).Nodup →
      discoverLoop r entries models =
        models ++ (entries.filter DirEntry.isDir).map fun e => (e.name, r e.name) := by
  intro entries
  induction entries with
  | nil => intro models _; simp [discoverLoop]
  | cons e rest ih =>
      intro models h
      by_cases hd : e.isDir
      · have hnotin : e.name ∉ models.map Prod.fst := fun hmem =>
          (List.disjoint_of_nodup_append h) hmem (by simp)
        have hnodup : (((models ++ [(e.name, r e.name)]).map Prod.fst) ++
            rest.map DirEntry.name).Nodup := by
          have := h
          rw [List.map_cons, List.append_cons] at this
          simpa using this
        rw [discoverLoop, if_pos hd, dictSet_of_not_mem _ _ _ hnotin, ih _ hnodup]
        simp [hd]
      · have hnodup : ((models.map Prod.fst) ++ rest.map DirEntry.name).Nodup := by
          refine List.Nodup.sublist ?_ h
          exact List.Sublist.append_left (List.sublist_cons_self _ _) _
        rw [discoverLoop, if_neg hd, ih _ hnodup]
        simp [hd]

/-- `C8`.  When the model root does not exist discovery yields an empty
mapping without raising; otherwise it yields exactly one `alias ↦ resolved
path` entry per immediate subdirectory, ignoring non-directory entries. -/
theorem discoverModels_spec (resolveEntry : String → String) (fs : ModelRoot) :
    (fs.rootExists = false → discoverModels resolveEntry fs = []) ∧
    (fs.rootExists = true → (fs.entries.map DirEntry.name).Nodup →
      discoverModels resolveEntry fs =
        (fs.entries.filter DirEntry.isDir).map fun e => (e.name, resolveEntry e.name)) := by
  constructor
  · intro h
    rw [discoverModels, h]
    rfl
  · intro hroot hnodup
    rw [discoverModels, if_pos (by rw [hroot])]
    simpa using discoverLoop_char resolveEntry fs.entries [] (by simpa using hnodup)

/-- Witness for `C8` on a concrete directory listing (one file, two
subdirectories) and on a missing root. -/
theorem discoverModels_spec_witness :
    discoverModels (fun n => "/models/" ++ n)
      ⟨true, [⟨"whisper-a", true⟩, ⟨"readme.txt", false⟩, ⟨"whisper-b", true⟩]⟩ =
      [("whisper-a", "/models/whisper-a"), ("whisper-b", "/models/whisper-b")] ∧
    discoverModels (fun n => "/models/" ++ n) ⟨false, [⟨"whisper-a", true⟩]⟩ = [] := by
  constructor
  · rw [(discoverModels_spec (fun n => "/models/" ++ n)
      ⟨true, [⟨"whisper-a", true⟩, ⟨"readme.txt", false⟩, ⟨"whisper-b", true⟩]⟩).2
      rfl (by decide)]
    rfl
  · exact (discoverModels_spec (fun n => "/models/" ++ n)
      ⟨false, [⟨"whisper-a", true⟩]⟩).1 rfl

/-! ## Lemmas about selector resolution -/

/-- `C6`.  A null selector resolves to the default alias and its path; a
selector equal to a known alias resolves to that alias and its registry
path; any other selector is resolved as a filesystem path and matched
against the resolved registry values (first match wins); when nothing
matches, resolution fails with `ModelNotFoundError(selector)` and the
endpoint answers 400 listing the available aliases. -/
theorem resolveSelection_spec (μ : Type) (loader : Loader μ) (resolve : String → String)
    (st : CacheSettings) (registry : List (String × String)) (defaultAlias dp : String)
    (cache : ModelCache μ) (hd : dictGet defaultAlias registry = some dp) :
    (resolveSelection resolve registry defaultAlias none = .ok (defaultAlias, dp)) ∧
    (∀ s p, dictGet s registry = some p →
      resolveSelection resolve registry defaultAlias (some s) = .ok (s, p)) ∧
    (∀ s a p, dictGet s registry = none →
      registry.find? (fun ap => resolve ap.2 = resolve s) = some (a, p) →
      resolveSelection resolve registry defaultAlias (some s) = .ok (a, p)) ∧
    (∀ s, dictGet s registry = none →
      registry.find? (fun ap => resolve ap.2 = resolve s) = none →
      resolveSelection resolve registry defaultAlias (some s) =
        .error (.modelNotFound s) ∧
      routerFetchModel loader resolve st registry defaultAlias cache (some s) =
        (.error (.http ⟨400, unknownModelDetail registry⟩), cache, 0)) := by
  refine ⟨?_, ?_, ?_, ?_⟩
  · simp [resolveSelection, hd]
  · intro s p h
    simp [resolveSelection, h]
  · intro s a p h hf
    simp [resolveSelection, h, hf]
  · intro s h hf
    have hres : resolveSelection resolve registry defaultAlias (some s) =
        .error (.modelNotFound s) := by
      simp [resolveSelection, h, hf]
    exact ⟨hres, by simp [routerFetchModel, getModel, hres]⟩

/-- Witness for `C6` on a concrete registry with two aliases: the four
selector shapes null / alias / path / unknown. -/
theorem resolveSelection_spec_witness :
    (resolveSelection id [("a", "/m/a"), ("b", "/m/b")] "a" none = .ok ("a", "/m/a")) ∧
    (resolveSelection id [("a", "/m/a"), ("b", "/m/b")] "a" (some "b") =
      .ok ("b", "/m/b")) ∧
    (resolveSelection id [("a", "/m/a"), ("b", "/m/b")] "a" (some "/m/b") =
      .ok ("b", "/m/b")) ∧
    (resolveSelection id [("a", "/m/a"), ("b", "/m/b")] "a" (some "zz") =
      .error (.modelNotFound "zz")) ∧
    (routerFetchModel (μ := Unit) (fun _ _ _ => .ok ⟨(), "cpu", "float32"⟩) id
        ⟨"auto", none⟩ [("a", "/m/a"), ("b", "/m/b")] "a" [] (some "zz") =
      (.error (.http ⟨400, "Mod\xe8le inconnu. Mod\xe8les disponibles: a, b"⟩), [], 0)) := by
  have h := resolveSelection_spec Unit (fun _ _ _ => .ok ⟨(), "cpu", "float32"⟩) id
    ⟨"auto", none⟩ [("a", "/m/a"), ("b", "/m/b")] "a" "/m/a" [] rfl
  refine ⟨h.1, h.2.1 "b" "/m/b" rfl, h.2.2.1 "/m/b" "b" "/m/b" rfl (by decide), ?_, ?_⟩
  · exact (h.2.2.2 "zz" rfl (by decide)).1
  · rw [(h.2.2.2 "zz" rfl (by decide)).2]
    rfl

/-! ## Lemmas about the model cache -/

theorem dictGet_dictSet [DecidableEq κ] (k k₂ : κ) (v : α) (m : List (κ × α)) :
    dictGet k (dictSet k₂ v m) = if k₂ = k then some v else dictGet k m := by
  induction m with
  | nil => simp [dictGet, dictSet]
  | cons kv rest ih =>
      obtain ⟨k₀, v₀⟩ := kv
      by_cases h : k₀ = k₂
      · subst h
        rw [dictSet, if_pos rfl]
        by_cases h₂ : k₀ = k
        · subst h₂; simp [dictGet]
        · simp [dictGet, h₂]
      · rw [dictSet, if_neg h]
        by_cases h₂ : k₀ = k
        · subst h₂
          have hne : k₂ ≠ k₀ := fun hc => h hc.symm
          simp [dictGet, hne]
        · simp [dictGet, h₂, ih]

theorem loadModel_cached (loader : Loader μ) (resolve : String → String)
    (st : CacheSettings) (cache : ModelCache μ) (p : String) (b : ModelBundle μ)
    (hc : dictGet (modelKey resolve st p) cache = some b) :
    loadModel loader resolve st cache p = (.ok b, cache, 0) := by
  simp [loadModel, hc]

theorem loadModel_miss_ok (loader : Loader μ) (resolve : String → String)
    (st : CacheSettings) (cache : ModelCache μ) (p : String) (b : ModelBundle μ)
    (hc : dictGet (modelKey resolve st p) cache = none)
    (hl : loader p st.deviceOption st.computeTypeOption = .ok b) :
    loadModel loader resolve st cache p =
      (.ok b, dictSet (modelKey resolve st p) b cache, 1) := by
  simp [loadModel, hc, hl]

theorem loadModel_miss_err (loader : Loader μ) (resolve : String → String)
    (st : CacheSettings) (cache : ModelCache μ) (p : String) (e : String)
    (hc : dictGet (modelKey resolve st p) cache = none)
    (hl : loader p st.deviceOption st.computeTypeOption = .error e) :
    loadModel loader resolve st cache p = (.error e, cache, 1) := by
  simp [loadModel, hc, hl]

/-- When every load succeeds, a whole operation sequence invokes the load
capability at most once per key — and not at all for keys already cached. -/
theorem runCacheOps_count_le (loader : Loader μ) (resolve : String → String)
    (st : CacheSettings)
    (hok : ∀ p, (loader p st.deviceOption st.computeTypeOption).isOk = true) :
    ∀ (ops : List CacheOp) (cache : ModelCache μ) (k : CacheKey),
      (runCacheOps loader resolve st ops cache).2.count k ≤
        (if (dictGet k cache).isSome then 0 else 1) := by
  intro ops
  induction ops with
  | nil => intro cache k; simp [runCacheOps]
  | cons op rest ih =>
      intro cache k
      cases op with
      | tryGet p => simpa [runCacheOps] using ih cache k
      | getOrLoad p =>
          cases hc : dictGet (modelKey resolve st p) cache with
          | some b =>
              have heq := loadModel_cached loader resolve st cache p b hc
              simp only [runCacheOps, heq]
              simpa using ih cache k
          | none =>
              cases hl : loader p st.deviceOption st.computeTypeOption with
              | error e =>
                  have hcontra := hok p
                  rw [hl] at hcontra
                  simp [Except.isOk, Except.toBool] at hcontra
              | ok b =>
                  have heq := loadModel_miss_ok loader resolve st cache p b hc hl
                  simp only [runCacheOps, heq]
                  by_cases hk : modelKey resolve st p = k
                  · subst hk
                    have hbound := ih (dictSet (modelKey resolve st p) b cache) (modelKey resolve st p)
                    rw [dictGet_dictSet, if_pos rfl] at hbound
                    simp only [Option.isSome_some, if_pos] at hbound
                    simp [List.count_cons, hc]
                    omega
                  · have hbound := ih (dictSet (modelKey resolve st p) b cache) k
                    rw [dictGet_dictSet, if_neg hk] at hbound
                    simpa [List.count_cons, hk] using hbound

/-- Once a key is cached with bundle `b`, no later operation ever invokes
the load capability for that key and the cached bundle stays `b`. -/
theorem runCacheOps_cached_frame (loader : Loader μ) (resolve : String → String)
    (st : CacheSettings) :
    ∀ (ops : List CacheOp) (cache : ModelCache μ) (k : CacheKey) (b : ModelBundle μ),
      dictGet k cache = some b →
      (runCacheOps loader resolve st ops cache).2.count k = 0 ∧
      dictGet k (runCacheOps loader resolve st ops cache).1 = some b := by
  intro ops
  induction ops with
  | nil => intro cache k b hcache; simpa [runCacheOps] using hcache
  | cons op rest ih =>
      intro cache k b hcache
      cases op with
      | tryGet p => simpa [runCacheOps] using ih cache k b hcache
      | getOrLoad p =>
          cases hc : dictGet (modelKey resolve st p) cache with
          | some b' =>
              have heq := loadModel_cached loader resolve st cache p b' hc
              simp only [runCacheOps, heq]
              simpa using ih cache k b hcache
          | none =>
              have hk : modelKey resolve st p ≠ k := fun hkk => by
                rw [hkk, hcache] at hc; exact Option.noConfusion hc
              cases hl : loader p st.deviceOption st.computeTypeOption with
              | ok b₂ =>
                  have heq := loadModel_miss_ok loader resolve st cache p b₂ hc hl
                  simp only [runCacheOps, heq]
                  have hcache₂ : dictGet k (dictSet (modelKey resolve st p) b₂ cache) = some b := by
                    rw [dictGet_dictSet, if_neg hk]; exact hcache
                  have hrest := ih (dictSet (modelKey resolve st p) b₂ cache) k b hcache₂
                  constructor
                  · simpa [List.count_cons, hk] using hrest.1
                  · simpa using hrest.2
              | error e =>
                  have heq := loadModel_miss_err loader resolve st cache p e hc hl
                  simp only [runCacheOps, heq]
                  have hrest := ih cache k b hcache
                  constructor
                  · simpa [List.count_cons, hk] using hrest.1
                  · simpa using hrest.2

/-- `C1` (corrected: at most one load per key holds while loads succeed; a
failed load leaves the cache unchanged and a later operation for the same
key retries the load capability).  From an empty cache, when every load
succeeds the capability is invoked at most once per cache key over any
operation sequence; and once a key is cached, any further sequence never
invokes the capability for that key, the cached bundle never changes, and
every subsequent `getOrLoad` or `tryGet` for a path with that key returns
the identical bundle with no re-load. -/
theorem modelCache_single_flight (μ : Type) (loader : Loader μ)
    (resolve : String → String) (st : CacheSettings) :
    ((∀ p, (loader p st.deviceOption st.computeTypeOption).isOk = true) →
      ∀ (ops : List CacheOp) (k : CacheKey),
        (runCacheOps loader resolve st ops ([] : ModelCache μ)).2.count k ≤ 1) ∧
    (∀ (ops : List CacheOp) (cache : ModelCache μ) (k : CacheKey) (b : ModelBundle μ),
      dictGet k cache = some b →
      (runCacheOps loader resolve st ops cache).2.count k = 0 ∧
      dictGet k (runCacheOps loader resolve st ops cache).1 = some b ∧
      (∀ p, modelKey resolve st p = k →
        loadModel loader resolve st (runCacheOps loader resolve st ops cache).1 p =
          (.ok b, (runCacheOps loader resolve st ops cache).1, 0) ∧
        getCachedModel resolve st (runCacheOps loader resolve st ops cache).1 p =
          .ok b)) := by
  constructor
  · intro hok ops k
    have h := runCacheOps_count_le loader resolve st hok ops [] k
    have : (dictGet k ([] : ModelCache μ)).isSome = false := rfl
    rw [this] at h
    simpa using h
  · intro ops cache k b hcache
    obtain ⟨hcount, hget⟩ := runCacheOps_cached_frame loader resolve st ops cache k b hcache
    refine ⟨hcount, hget, fun p hkp => ?_⟩
    have hhit : dictGet (modelKey resolve st p)
        (runCacheOps loader resolve st ops cache).1 = some b := by rw [hkp]; exact hget
    exact ⟨loadModel_cached loader resolve st _ p b hhit, by simp [getCachedModel, hhit]⟩

/-- Counterexample to `C1` as stated: when the load capability fails for a
path (for example a missing model artifact), the failing load leaves the
cache empty and a second `getOrLoad` for the same key invokes the capability
a second time — the invocation count for that key is 2, not at most 1. -/
theorem modelCache_single_flight_counterexample :
    ¬ ((runCacheOps (μ := Unit) (fun _ _ _ => .error "boom") id ⟨"auto", none⟩
        [.getOrLoad "p", .getOrLoad "p"] []).2.count ("p", "auto", none) ≤ 1) := by
  decide

/-- Witness for the amended `C1`: with an always-succeeding loader, two
`getOrLoad`s and a `tryGet` on the same path invoke the loader at most once;
and starting from a cache already holding the key, no invocation happens at
all. -/
theorem modelCache_single_flight_witness :
    ((runCacheOps (μ := Unit) (fun _ _ _ => .ok ⟨(), "cpu", "float32"⟩) id ⟨"auto", none⟩
        [.getOrLoad "p", .getOrLoad "p", .tryGet "p"] []).2.count
      ("p", "auto", none) ≤ 1) ∧
    ((runCacheOps (μ := Unit) (fun _ _ _ => .ok ⟨(), "cpu", "float32"⟩) id ⟨"auto", none⟩
        [.getOrLoad "p"]
        [(("p", "auto", none), ⟨(), "cpu", "float32"⟩)]).2.count
      ("p", "auto", none) = 0) := by
  have h := modelCache_single_flight Unit (fun _ _ _ => .ok ⟨(), "cpu", "float32"⟩)
    id ⟨"auto", none⟩
  refine ⟨h.1 (fun _ => rfl) _ _, ?_⟩
  exact (h.2 [CacheOp.getOrLoad "p"] [(("p", "auto", none), ⟨(), "cpu", "float32"⟩)]
    ("p", "auto", none) ⟨(), "cpu", "float32"⟩ rfl).1

/-! ## The not-ready path of the transcription endpoint -/

/-- Counterexample to `C2` as stated: in the router endpoint
(`server/routes/api.py`), a request whose selector resolves to a registered
model with no cached bundle does **not** get a 5xx error — `get_model`
synchronously invokes the load capability during the request (count 1) and
the request proceeds with the freshly loaded bundle. -/
theorem notReady_counterexample :
    (routerFetchModel (μ := Unit) (fun _ _ _ => .ok ⟨(), "cpu", "float32"⟩) id
        ⟨"auto", none⟩ [("a", "/m/a")] "a" [] (some "a")).2.2 = 1 ∧
    (routerFetchModel (μ := Unit) (fun _ _ _ => .ok ⟨(), "cpu", "float32"⟩) id
        ⟨"auto", none⟩ [("a", "/m/a")] "a" [] (some "a")).1 =
      .ok ("a", "/m/a", ⟨(), "cpu", "float32"⟩) := by
  exact ⟨rfl, rfl⟩

/-- `C2` (amended: only the legacy module-level endpoint in `app.py` has the
not-ready path; the router endpoint loads synchronously on demand instead).
In the legacy endpoint, a selector resolving to a registered model whose
bundle is not cached yields a 503 naming the alias and pointing at
`/health`, and no load capability is invoked — the fetch stage takes no
loader at all and leaves the cache untouched. -/
theorem legacy_notReady (μ : Type) (resolve : String → String) (st : CacheSettings)
    (registry : List (String × String)) (defaultAlias : String)
    (cache : ModelCache μ) (selection : Option String) (a p : String)
    (hres : resolveModelSelection resolve registry defaultAlias selection = .ok (a, p))
    (hmiss : dictGet (modelKey resolve st p) cache = none) :
    legacyFetchModel resolve st registry defaultAlias cache selection =
      .error (.http ⟨503, notReadyDetail a⟩) := by
  simp [legacyFetchModel, hres, getCachedModel, hmiss]

/-- Witness for the amended `C2` on a concrete registry with an empty
cache. -/
theorem legacy_notReady_witness :
    legacyFetchModel (μ := Unit) id ⟨"auto", none⟩ [("a", "/m/a")] "a" [] (some "a") =
      .error (.http ⟨503,
        "Le mod\xe8le \x27a\x27 n\x27est pas pr\xeat. Consultez /health."⟩) := by
  rw [legacy_notReady Unit id ⟨"auto", none⟩ [("a", "/m/a")] "a" [] (some "a")
    "a" "/m/a" rfl rfl]
  rfl

/-! ## Lemmas about eager startup loading -/

/-- `_load_model` never evicts: a cached key stays cached. -/
theorem loadModel_mono (loader : Loader μ) (resolve : String → String)
    (st : CacheSettings) (cache : ModelCache μ) (p : String) (k : CacheKey)
    (h : (dictGet k cache).isSome = true) :
    (dictGet k (loadModel loader resolve st cache p).2.1).isSome = true := by
  cases hc : dictGet (modelKey resolve st p) cache with
  | some b => rw [loadModel_cached loader resolve st cache p b hc]; exact h
  | none =>
      cases hl : loader p st.deviceOption st.computeTypeOption with
      | ok b =>
          rw [loadModel_miss_ok loader resolve st cache p b hc hl]
          simp only
          rw [dictGet_dictSet]
          split
          · rfl
          · exact h
      | error e => rw [loadModel_miss_err loader resolve st cache p e hc hl]; exact h

/-- After `_load_model` for a path whose load succeeds, the path's key is
cached. -/
theorem loadModel_key_cached (loader : Loader μ) (resolve : String → String)
    (st : CacheSettings) (cache : ModelCache μ) (p : String)
    (hok : (loader p st.deviceOption st.computeTypeOption).isOk = true) :
    (dictGet (modelKey resolve st p) (loadModel loader resolve st cache p).2.1).isSome
      = true := by
  cases hc : dictGet (modelKey resolve st p) cache with
  | some b => rw [loadModel_cached loader resolve st cache p b hc, hc]; rfl
  | none =>
      cases hl : loader p st.deviceOption st.computeTypeOption with
      | error e => rw [hl] at hok; simp [Except.isOk, Except.toBool] at hok
      | ok b =>
          rw [loadModel_miss_ok loader resolve st cache p b hc hl]
          simp only
          rw [dictGet_dictSet, if_pos rfl]
          rfl

/-- The bulk pass never evicts a cached key. -/
theorem loadAllPass_mono (loader : Loader μ) (resolve : String → String)
    (st : CacheSettings) :
    ∀ (reg : List (String × String)) (cache : ModelCache μ) (k : CacheKey),
      (dictGet k cache).isSome = true →
      (dictGet k (loadAllPass loader resolve st reg cache).1).isSome = true := by
  intro reg
  induction reg with
  | nil => intro cache k h; simpa [loadAllPass] using h
  | cons ap rest ih =>
      intro cache k h
      obtain ⟨a, p⟩ := ap
      have hmono := loadModel_mono loader resolve st cache p k h
      rcases hlm : loadModel loader resolve st cache p with ⟨r, c₁, n⟩
      rw [hlm] at hmono
      cases r with
      | ok b =>
          simp only [loadAllPass, hlm]
          exact ih c₁ k hmono
      | error e =>
          simp only [loadAllPass, hlm]
          exact ih c₁ k hmono

/-- After the bulk pass, every registered model whose load succeeds is
cached — independently of failures of the other registered models. -/
theorem loadAllPass_loads (loader : Loader μ) (resolve : String → String)
    (st : CacheSettings) :
    ∀ (reg : List (String × String)) (cache : ModelCache μ) (a p : String),
      (a, p) ∈ reg →
      (loader p st.deviceOption st.computeTypeOption).isOk = true →
      (dictGet (modelKey resolve st p) (loadAllPass loader resolve st reg cache).1).isSome
        = true := by
  intro reg
  induction reg with
  | nil => intro cache a p hmem; simp at hmem
  | cons ap rest ih =>
      intro cache a p hmem hok
      obtain ⟨a₀, p₀⟩ := ap
      rcases List.mem_cons.mp hmem with heq | hmem₂
      · obtain ⟨ha, hp⟩ := Prod.mk.injEq a p a₀ p₀ |>.mp heq
        subst ha hp
        have hcached := loadModel_key_cached loader resolve st cache p hok
        rcases hlm : loadModel loader resolve st cache p with ⟨r, c₁, n⟩
        rw [hlm] at hcached
        cases r with
        | ok b =>
            simp only [loadAllPass, hlm]
            exact loadAllPass_mono loader resolve st rest c₁ _ hcached
        | error e =>
            simp only [loadAllPass, hlm]
            exact loadAllPass_mono loader resolve st rest c₁ _ hcached
      · rcases hlm : loadModel loader resolve st cache p₀ with ⟨r, c₁, n⟩
        cases r with
        | ok b =>
            simp only [loadAllPass, hlm]
            exact ih c₁ a p hmem₂ hok
        | error e =>
            simp only [loadAllPass, hlm]
            exact ih c₁ a p hmem₂ hok

/-- `C7`.  During eager startup loading each per-alias failure is caught
independently: every registered model whose own load succeeds ends up cached
no matter which other models fail.  After the bulk pass the default model is
re-verified through `get_model`, and `load_all` succeeds exactly when the
default model's key is cached at the end (so startup fails fatally exactly
when the default model is still not loaded). -/
theorem loadAll_default_gate (μ : Type) (loader : Loader μ) (resolve : String → String)
    (st : CacheSettings) (registry : List (String × String)) (defaultAlias dp : String)
    (hd : dictGet defaultAlias registry = some dp) :
    (∀ a p, (a, p) ∈ registry →
      (loader p st.deviceOption st.computeTypeOption).isOk = true →
      (dictGet (modelKey resolve st p)
        (loadAll loader resolve st registry defaultAlias ([] : ModelCache μ)).2.1).isSome
        = true) ∧
    ((loadAll loader resolve st registry defaultAlias ([] : ModelCache μ)).1.isOk = true ↔
      (dictGet (modelKey resolve st dp)
        (loadAll loader resolve st registry defaultAlias ([] : ModelCache μ)).2.1).isSome
        = true) := by
  have hres : resolveSelection resolve registry defaultAlias (some defaultAlias) =
      .ok (defaultAlias, dp) := by simp [resolveSelection, hd]
  rcases hpass : loadAllPass loader resolve st registry ([] : ModelCache μ) with ⟨c₁, errs⟩
  have hloads : ∀ a p, (a, p) ∈ registry →
      (loader p st.deviceOption st.computeTypeOption).isOk = true →
      (dictGet (modelKey resolve st p) c₁).isSome = true := by
    intro a p hmem hok
    have h := loadAllPass_loads loader resolve st registry [] a p hmem hok
    rw [hpass] at h
    exact h
  cases hc : dictGet (modelKey resolve st dp) c₁ with
  | some b =>
      have hgm : getModel loader resolve st registry defaultAlias c₁ (some defaultAlias) =
          (.ok (defaultAlias, dp, b), c₁, 0) := by
        simp [getModel, hres, loadModel_cached loader resolve st c₁ dp b hc]
      have hLA : loadAll loader resolve st registry defaultAlias ([] : ModelCache μ) =
          (.ok (), c₁, errs) := by
        unfold loadAll
        rw [hpass]
        simp [hgm]
      rw [hLA]
      exact ⟨fun a p hmem hok => hloads a p hmem hok, by simp [hc, Except.isOk, Except.toBool]⟩
  | none =>
      cases hl : loader dp st.deviceOption st.computeTypeOption with
      | ok b =>
          have hgm : getModel loader resolve st registry defaultAlias c₁ (some defaultAlias) =
              (.ok (defaultAlias, dp, b), dictSet (modelKey resolve st dp) b c₁, 1) := by
            simp [getModel, hres, loadModel_miss_ok loader resolve st c₁ dp b hc hl]
          have hLA : loadAll loader resolve st registry defaultAlias ([] : ModelCache μ) =
              (.ok (), dictSet (modelKey resolve st dp) b c₁, errs) := by
            unfold loadAll
            rw [hpass]
            simp [hgm]
          rw [hLA]
          constructor
          · intro a p hmem hok
            have h := hloads a p hmem hok
            simp only
            rw [dictGet_dictSet]
            split
            · rfl
            · exact h
          · simp only
            rw [dictGet_dictSet, if_pos rfl]
            simp [Except.isOk, Except.toBool]
      | error e =>
          have hgm : getModel loader resolve st registry defaultAlias c₁ (some defaultAlias) =
              (.error (.loadError e), c₁, 1) := by
            simp [getModel, hres, loadModel_miss_err loader resolve st c₁ dp e hc hl]
          have hLA : loadAll loader resolve st registry defaultAlias ([] : ModelCache μ) =
              (.error (.loadError e), c₁, errs) := by
            unfold loadAll
            rw [hpass]
            simp [hgm]
          rw [hLA]
          exact ⟨fun a p hmem hok => hloads a p hmem hok,
            by simp [hc, Except.isOk, Except.toBool]⟩

/-- Witness for `C7`: the spec's startup scenario — registry with default
`a` loading fine and `b` whose artifact fails to load.  Startup succeeds,
`a` is cached, `b` is not. -/
theorem loadAll_default_gate_witness :
    ((loadAll (μ := Unit)
        (fun p _ _ => if p = "/m/b" then .error "corrupt" else .ok ⟨(), "cpu", "float32"⟩)
        id ⟨"auto", none⟩ [("a", "/m/a"), ("b", "/m/b")] "a" []).1.isOk = true) ∧
    ((dictGet ("/m/a", "auto", none)
        (loadAll (μ := Unit)
          (fun p _ _ => if p = "/m/b" then .error "corrupt" else .ok ⟨(), "cpu", "float32"⟩)
          id ⟨"auto", none⟩ [("a", "/m/a"), ("b", "/m/b")] "a" []).2.1).isSome = true) ∧
    ((dictGet ("/m/b", "auto", none)
        (loadAll (μ := Unit)
          (fun p _ _ => if p = "/m/b" then .error "corrupt" else .ok ⟨(), "cpu", "float32"⟩)
          id ⟨"auto", none⟩ [("a", "/m/a"), ("b", "/m/b")] "a" []).2.1).isSome = false) := by
  have h := loadAll_default_gate Unit
    (fun p _ _ => if p = "/m/b" then .error "corrupt" else .ok ⟨(), "cpu", "float32"⟩)
    id ⟨"auto", none⟩ [("a", "/m/a"), ("b", "/m/b")] "a" "/m/a" rfl
  have ha := h.1 "a" "/m/a" (by simp) (by rfl)
  exact ⟨h.2.mpr ha, ha, by rfl⟩

/-! ## Lemmas about defensive copies in `ResponseStore` -/

/-- The copying loop of `history()`: the result heap only extends the input
heap, every handed-out address is fresh, and the handed-out copies have
exactly the stored contents. -/
theorem storeHistory_go_spec (ε : Type) :
    ∀ (addrs : List Nat) (h : Heap ε),
      (∀ a ∈ addrs, a < h.length) →
      (∃ t, (storeHistory.go addrs h).2 = h ++ t) ∧
      (∀ a' ∈ (storeHistory.go addrs h).1, h.length ≤ a') ∧
      ((storeHistory.go addrs h).1.filterMap (heapGet (storeHistory.go addrs h).2) =
        addrs.filterMap (heapGet h)) := by
  intro addrs
  induction addrs with
  | nil => intro h _; exact ⟨⟨[], by simp [storeHistory.go]⟩, by simp [storeHistory.go],
      by simp [storeHistory.go]⟩
  | cons a rest ih =>
      intro h hvalid
      have ha : a < h.length := hvalid a (by simp)
      have hga : heapGet h a = some h[a] := by
        simp [heapGet, List.getElem?_eq_getElem ha]
      have hvrest : ∀ b ∈ rest, b < (h ++ [h[a]]).length := by
        intro b hb
        have := hvalid b (by simp [hb])
        simp only [List.length_append, List.length_cons, List.length_nil]
        omega
      obtain ⟨⟨t, hext⟩, hfresh, hcontents⟩ := ih (h ++ [h[a]]) hvrest
      have hgo : storeHistory.go (a :: rest) h =
          (h.length :: (storeHistory.go rest (h ++ [h[a]])).1,
            (storeHistory.go rest (h ++ [h[a]])).2) := by
        simp [storeHistory.go, hga, heapAlloc]
      rw [hgo]
      refine ⟨⟨[h[a]] ++ t, by rw [hext, List.append_assoc]⟩, ?_, ?_⟩
      · intro a' ha'
        rcases List.mem_cons.mp ha' with rfl | hmem
        · exact Nat.le_refl _
        · have := hfresh a' hmem
          simp only [List.length_append, List.length_cons, List.length_nil] at this
          omega
      · have hhead : heapGet (storeHistory.go rest (h ++ [h[a]])).2 h.length =
            some h[a] := by
          rw [hext, heapGet, List.getElem?_append_left (by simp)]
          exact List.getElem?_concat_length h h[a]
        have htail : rest.filterMap (heapGet (h ++ [h[a]])) =
            rest.filterMap (heapGet h) := by
          refine List.filterMap_congr ?_
          intro b hb
          have hb' := hvalid b (by simp [hb])
          rw [heapGet, heapGet, List.getElem?_append_left hb']
        simp only [List.filterMap_cons, hhead, hcontents, htail, hga]

/-- Mutating a cell that no store-held address points at leaves both views
unchanged. -/
theorem views_frame (ε : Type) (s : ResponseStore Nat) (h : Heap ε)
    (hv : storeValid s h) (h₂ : Heap ε) (a : Nat) (v : ε) (ha : h.length ≤ a) :
    latestView s (heapSet h₂ a v) = latestView s h₂ ∧
    historyView s (heapSet h₂ a v) = historyView s h₂ := by
  constructor
  · rw [latestView, latestView]
    cases hl : s.latest with
    | none => rfl
    | some a₀ =>
        have ha₀ := hv.2 a₀ hl
        show heapGet (heapSet h₂ a v) a₀ = heapGet h₂ a₀
        rw [heapGet, heapGet, heapSet, List.getElem?_set_ne (by omega : a ≠ a₀)]
  · rw [historyView, historyView]
    refine List.filterMap_congr ?_
    intro b hb
    have hb' := hv.1 b hb
    rw [heapGet, heapGet, heapSet, List.getElem?_set_ne (by omega : a ≠ b)]

/-- `C9`.  `latest()` returns absent when nothing was recorded; otherwise it
returns a freshly allocated copy of the most recent entry (fresh address,
same contents); `history()` returns fresh copies of all retained entries
with unchanged contents; the store's own operations never mutate existing
heap cells (they only extend the heap); and mutating any handed-out (fresh)
cell leaves the results of all subsequent `latest()` and `history()` calls
unchanged. -/
theorem responseStore_defensive_copies (ε : Type) (s : ResponseStore Nat)
    (h : Heap ε) (hv : storeValid s h) :
    (s.latest = none → storeLatest s h = (none, h)) ∧
    (∀ a₀, s.latest = some a₀ →
      (storeLatest s h).1 = some h.length ∧
      h.length ≠ a₀ ∧
      heapGet (storeLatest s h).2 h.length = heapGet h a₀ ∧
      ∃ t, (storeLatest s h).2 = h ++ t) ∧
    ((∀ a' ∈ (storeHistory s h).1, h.length ≤ a') ∧
      ((storeHistory s h).1.filterMap (heapGet (storeHistory s h).2) =
        historyView s h) ∧
      ∃ t, (storeHistory s h).2 = h ++ t) ∧
    (∀ (h₂ : Heap ε) (a : Nat) (v : ε), h.length ≤ a →
      latestView s (heapSet h₂ a v) = latestView s h₂ ∧
      historyView s (heapSet h₂ a v) = historyView s h₂) := by
  refine ⟨?_, ?_, ?_, fun h₂ a v ha => views_frame ε s h hv h₂ a v ha⟩
  · intro hl
    rw [storeLatest, hl]
  · intro a₀ hl
    have ha₀ := hv.2 a₀ hl
    have hga : heapGet h a₀ = some h[a₀] := by
      simp [heapGet, List.getElem?_eq_getElem ha₀]
    have hSL : storeLatest s h = (some h.length, h ++ [h[a₀]]) := by
      unfold storeLatest
      rw [hl]
      simp [hga, heapAlloc]
    rw [hSL]
    refine ⟨rfl, by omega, ?_, ⟨[h[a₀]], rfl⟩⟩
    rw [hga, heapGet]
    exact List.getElem?_concat_length h h[a₀]
  · have hgo := storeHistory_go_spec ε s.history h hv.1
    unfold storeHistory
    exact ⟨hgo.2.1, hgo.2.2, hgo.1⟩

/-- Witness for `C9`: a one-entry store over a one-cell heap; the handed-out
copy is the fresh address 1, carries the stored contents, and mutating it
leaves the `latest()` view unchanged. -/
theorem responseStore_defensive_copies_witness :
    (storeLatest (ε := Nat) ⟨some 0, [0], 20⟩ [42]).1 = some 1 ∧
    heapGet (storeLatest (ε := Nat) ⟨some 0, [0], 20⟩ [42]).2 1 =
      heapGet ([42] : Heap Nat) 0 ∧
    latestView (ε := Nat) ⟨some 0, [0], 20⟩
        (heapSet (storeLatest (ε := Nat) ⟨some 0, [0], 20⟩ [42]).2 1 99) =
      latestView (ε := Nat) ⟨some 0, [0], 20⟩
        (storeLatest (ε := Nat) ⟨some 0, [0], 20⟩ [42]).2 := by
  have hv : storeValid (ε := Nat) ⟨some 0, [0], 20⟩ [42] := by
    constructor
    · intro a ha
      simp at ha
      subst ha
      decide
    · intro a ha
      simp at ha
      subst ha
      decide
  have h := responseStore_defensive_copies Nat ⟨some 0, [0], 20⟩ [42] hv
  exact ⟨(h.2.1 0 rfl).1, (h.2.1 0 rfl).2.2.1, (h.2.2.2 _ 1 99 (by decide)).1⟩

end VoiceToText
